import Mathlib

set_option maxRecDepth 100000

/-!
Shallow embedding of the ShopManage single-page product manager
(`src/app.js`) for verification of its specification claims.

Modelling conventions:
* The DOM, modal, and toast layers are out of scope (per the spec); each
  controller operation is embedded as a pure state transformer on the
  in-memory collection (`localProducts`) and the `localStorage` slot for
  the fixed key `shopManageProducts` (`storage`), plus a reported
  success/failure outcome.
* JavaScript strings are modelled as `List Char`; JSON numbers are
  modelled as integers (`Int`): every identifier in the program is an
  integer and the exact decimal form of a JS double plays no role in the
  claims settled here.
* `JSON.stringify` / `JSON.parse` on a product collection are embedded
  as the concrete serializer `stringifyProducts` and its parser
  `parseProducts` below.  The serializer emits exactly the compact
  JSON document `JSON.stringify` produces for the six-field product
  records this app builds (fixed key order, no whitespace, the standard
  string escapes).  The parser accepts that grammar and answers `none`
  otherwise; `none` stands for `JSON.parse` throwing (at every input a
  claim is evaluated on, the two agree).
* A remote call is a parameter of type `Except Unit Nat`: `.error ()`
  is a transport failure (the `fetch` promise rejects) and `.ok status`
  is a completed HTTP round-trip with the given status code.
-/

namespace ShopManage

/-- A product record: the six fields this app reads and writes
(`src/app.js` builds exactly these in `addProduct` / `updateProduct`,
and the spec's data model lists exactly these). -/
structure Product where
  id : Int
  title : List Char
  description : List Char
  price : Int
  category : List Char
  thumbnail : List Char
deriving DecidableEq, Repr

/-- The mutable state of the page: the in-memory array `localProducts`
and the `localStorage` value stored under the key
`shopManageProducts` (`none` = key absent). -/
structure AppState where
  localProducts : List Product
  storage : Option (List Char)
deriving DecidableEq, Repr

/-! ## JSON serialization (model of `JSON.stringify` on a product array) -/

/-- Lower-case hexadecimal digit character, as used both for decimal
digits (`d < 10`) and in `\u00XX` escapes. -/
def hexDigit (d : Nat) : Char :=
  match d with
  | 0 => '0' | 1 => '1' | 2 => '2' | 3 => '3' | 4 => '4'
  | 5 => '5' | 6 => '6' | 7 => '7' | 8 => '8' | 9 => '9'
  | 10 => 'a' | 11 => 'b' | 12 => 'c' | 13 => 'd' | 14 => 'e'
  | _ => 'f'

/-- The escape sequence `JSON.stringify` emits for one character of a
string: `\"`, `\\`, the five short control escapes, `\u00XX` for the
remaining control characters, and the character itself otherwise. -/
def escapeChar (c : Char) : List Char :=
  if c = '"' then ['\\', '"']
  else if c = '\\' then ['\\', '\\']
  else if c = '\x08' then ['\\', 'b']
  else if c = '\x09' then ['\\', 't']
  else if c = '\x0a' then ['\\', 'n']
  else if c = '\x0c' then ['\\', 'f']
  else if c = '\x0d' then ['\\', 'r']
  else if c.toNat < 32 then
    ['\\', 'u', '0', '0', hexDigit (c.toNat / 16), hexDigit (c.toNat % 16)]
  else [c]

/-- Body of a JSON string literal: every character escaped as
`JSON.stringify` does. -/
def escString : List Char → List Char
  | [] => []
  | c :: cs => escapeChar c ++ escString cs

/-- A complete JSON string literal (quotes included). -/
def encStr (s : List Char) : List Char :=
  '"' :: escString s ++ ['"']

/-- Little-endian decimal digits of `n`, with explicit fuel so the
definition is structurally recursive (fuel `≥ n` suffices). -/
def natDigitsRev (fuel n : Nat) : List Nat :=
  match fuel with
  | 0 => []
  | f + 1 => if n = 0 then [] else n % 10 :: natDigitsRev f (n / 10)

/-- Decimal notation of a natural number, as JS number-to-string
produces for non-negative integers ("0" for zero). -/
def encNat (n : Nat) : List Char :=
  if n = 0 then ['0'] else ((natDigitsRev n n).map hexDigit).reverse

/-- Decimal notation of an integer (leading `-` when negative), as
`JSON.stringify` prints the integer-valued numbers of this app. -/
def encInt (i : Int) : List Char :=
  if i < 0 then '-' :: encNat (-i).toNat else encNat i.toNat

/-- One serialized product object, with the exact key order in which
`addProduct` / `updateProduct` construct product objects — the order
`JSON.stringify` then reproduces. -/
def encProduct (p : Product) : List Char :=
  '\x7b' :: ('"' :: 'i' :: 'd' :: '"' :: ':' :: encInt p.id)
  ++ (',' :: '"' :: 't' :: 'i' :: 't' :: 'l' :: 'e' :: '"' :: ':' :: encStr p.title)
  ++ (',' :: '"' :: 'd' :: 'e' :: 's' :: 'c' :: 'r' :: 'i' :: 'p' :: 't' :: 'i' :: 'o' :: 'n' :: '"' :: ':' :: encStr p.description)
  ++ (',' :: '"' :: 'p' :: 'r' :: 'i' :: 'c' :: 'e' :: '"' :: ':' :: encInt p.price)
  ++ (',' :: '"' :: 'c' :: 'a' :: 't' :: 'e' :: 'g' :: 'o' :: 'r' :: 'y' :: '"' :: ':' :: encStr p.category)
  ++ (',' :: '"' :: 't' :: 'h' :: 'u' :: 'm' :: 'b' :: 'n' :: 'a' :: 'i' :: 'l' :: '"' :: ':' :: encStr p.thumbnail)
  ++ ['\x7d']

/-- Comma-separated serialized products (the body between `[` and `]`). -/
def encProductsBody : List Product → List Char
  | [] => []
  | [p] => encProduct p
  | p :: ps => encProduct p ++ ',' :: encProductsBody ps

/-- `JSON.stringify` applied to the whole product array. -/
def stringifyProducts (ps : List Product) : List Char :=
  '[' :: encProductsBody ps ++ [']']

/-! ## JSON parsing (model of `JSON.parse` on the cached document) -/

/-- Decimal digit value of a character, `none` if not `0`..`9`. -/
def digitVal (c : Char) : Option Nat :=
  if 48 ≤ c.toNat ∧ c.toNat ≤ 57 then some (c.toNat - 48) else none

/-- Hexadecimal digit value of a character, `none` if not a hex digit. -/
def hexVal (c : Char) : Option Nat :=
  if 48 ≤ c.toNat ∧ c.toNat ≤ 57 then some (c.toNat - 48)
  else if 97 ≤ c.toNat ∧ c.toNat ≤ 102 then some (c.toNat - 87)
  else if 65 ≤ c.toNat ∧ c.toNat ≤ 70 then some (c.toNat - 55)
  else none

/-- The character denoted by a single-character JSON escape. -/
def namedUnesc (c : Char) : Option Char :=
  if c = '"' then some '"'
  else if c = '\\' then some '\\'
  else if c = '/' then some '/'
  else if c = 'b' then some '\x08'
  else if c = 't' then some '\x09'
  else if c = 'n' then some '\x0a'
  else if c = 'f' then some '\x0c'
  else if c = 'r' then some '\x0d'
  else none

/-- Parse four hexadecimal digits (the `XXXX` of a `\uXXXX` escape). -/
def parseHex4 (s : List Char) : Option (Nat × List Char) :=
  match s with
  | h1 :: h2 :: h3 :: h4 :: rest =>
    match hexVal h1, hexVal h2, hexVal h3, hexVal h4 with
    | some a, some b, some c, some d => some (4096 * a + 256 * b + 16 * c + d, rest)
    | _, _, _, _ => none
  | _ => none

/-- Parse the body of a JSON string literal up to the closing quote;
returns the decoded characters and the remaining input.  The fuel makes
the recursion structural; each step consumes at least one character, so
fuel equal to the input length always suffices. -/
def parseStringBodyF : Nat → List Char → Option (List Char × List Char)
  | 0, _ => none
  | _ + 1, [] => none
  | fuel + 1, c :: rest =>
    if c = '"' then some ([], rest)
    else if c = '\\' then
      match rest with
      | [] => none
      | e :: rest2 =>
        if e = 'u' then
          match parseHex4 rest2 with
          | some (n, rest3) =>
            match parseStringBodyF fuel rest3 with
            | some (s, r) => some (Char.ofNat n :: s, r)
            | none => none
          | none => none
        else
          match namedUnesc e with
          | some ch =>
            match parseStringBodyF fuel rest2 with
            | some (s, r) => some (ch :: s, r)
            | none => none
          | none => none
    else
      match parseStringBodyF fuel rest with
      | some (s, r) => some (c :: s, r)
      | none => none

/-- Parse a complete JSON string literal (expects the opening quote). -/
def parseQString (s : List Char) : Option (List Char × List Char) :=
  match s with
  | '"' :: rest => parseStringBodyF rest.length rest
  | _ => none

/-- Consume the expected literal characters from the front of the input. -/
def expectLit : List Char → List Char → Option (List Char)
  | [], s => some s
  | _ :: _, [] => none
  | p :: ps, c :: cs => if c = p then expectLit ps cs else none

/-- Greedily take decimal digits from the front of the input. -/
def parseDigits : List Char → List Nat × List Char
  | [] => ([], [])
  | c :: rest =>
    match digitVal c with
    | some d =>
      let (ds, r) := parseDigits rest
      (d :: ds, r)
    | none => ([], c :: rest)

/-- Value of a little-endian decimal digit list. -/
def digitsToNat (ds : List Nat) : Nat :=
  ds.foldr (fun d acc => d + 10 * acc) 0

/-- Parse a non-empty run of decimal digits as a natural number. -/
def parseNat (s : List Char) : Option (Nat × List Char) :=
  match parseDigits s with
  | ([], _) => none
  | (ds, r) => some (digitsToNat ds.reverse, r)

/-- Parse an optionally negated decimal integer. -/
def parseJsInt (s : List Char) : Option (Int × List Char) :=
  match s with
  | [] => none
  | c :: rest =>
    if c = '-' then
      match parseNat rest with
      | some (n, r) => some (-(n : Int), r)
      | none => none
    else
      match parseNat (c :: rest) with
      | some (n, r) => some ((n : Int), r)
      | none => none

/-- Parse one serialized product object (the exact shape `encProduct`
emits: six known keys in order). -/
def parseProduct (s : List Char) : Option (Product × List Char) := do
  let s1 ← expectLit ['\x7b', '"', 'i', 'd', '"', ':'] s
  let (idv, s2) ← parseJsInt s1
  let s3 ← expectLit [',', '"', 't', 'i', 't', 'l', 'e', '"', ':'] s2
  let (tl, s4) ← parseQString s3
  let s5 ← expectLit [',', '"', 'd', 'e', 's', 'c', 'r', 'i', 'p', 't', 'i', 'o', 'n', '"', ':'] s4
  let (ds, s6) ← parseQString s5
  let s7 ← expectLit [',', '"', 'p', 'r', 'i', 'c', 'e', '"', ':'] s6
  let (pr, s8) ← parseJsInt s7
  let s9 ← expectLit [',', '"', 'c', 'a', 't', 'e', 'g', 'o', 'r', 'y', '"', ':'] s8
  let (ct, s10) ← parseQString s9
  let s11 ← expectLit [',', '"', 't', 'h', 'u', 'm', 'b', 'n', 'a', 'i', 'l', '"', ':'] s10
  let (tb, s12) ← parseQString s11
  let s13 ← expectLit ['\x7d'] s12
  pure (⟨idv, tl, ds, pr, ct, tb⟩, s13)

/-- Parse a comma-separated sequence of product objects; the fuel bounds
the number of items (the input length is always enough). -/
def parseItemsF : Nat → List Char → Option (List Product × List Char)
  | 0, _ => none
  | fuel + 1, s =>
    match parseProduct s with
    | none => none
    | some (p, s1) =>
      match s1 with
      | [] => some ([p], [])
      | c :: s2 =>
        if c = ',' then
          match parseItemsF fuel s2 with
          | some (ps, r) => some (p :: ps, r)
          | none => none
        else some ([p], c :: s2)

/-- Parse a complete serialized product collection (`[...]`, whole
input consumed). -/
def parseProducts (s : List Char) : Option (List Product) :=
  match s with
  | '[' :: rest =>
    match rest with
    | ']' :: rest2 => if rest2 = [] then some [] else none
    | _ =>
      match parseItemsF rest.length rest with
      | some (ps, rest2) =>
        match rest2 with
        | ']' :: rest3 => if rest3 = [] then some ps else none
        | _ => none
      | none => none
  | _ => none

/-! ## Cache store (`getLocalProducts` / `saveLocalProducts`) -/

/-- `getLocalProducts` (`src/app.js:20-23`):
`localStorage.getItem` yields the stored value or `null`; the JS
conditional `stored ? JSON.parse(stored) : null` treats both `null` and
the empty string as falsy and returns `null`, otherwise it runs
`JSON.parse`, which throws on a malformed document (`.error ()` here —
there is no local catch in the source). -/
def getLocalProducts (storage : Option (List Char)) :
    Except Unit (Option (List Product)) :=
  match storage with
  | none => .ok none
  | some s =>
    if s = [] then .ok none
    else
      match parseProducts s with
      | some ps => .ok (some ps)
      | none => .error ()

/-- `saveLocalProducts` (`src/app.js:26-29`): writes the full JSON
serialization of `products` under the fixed key (an unconditional
whole-value overwrite) and replaces the in-memory array. -/
def saveLocalProducts (products : List Product) : AppState :=
  { localProducts := products, storage := some (stringifyProducts products) }

/-! ## Controller operations -/

/-- Outcome of the startup hydration (`fetchProducts`). -/
inductive HydrationOutcome
  | fromCache
  | fromApi
  | failed
deriving DecidableEq, Repr

/-- Result of `fetchProducts`: the new state, the number of times the
remote `list` endpoint was invoked, and which path was taken. -/
structure FetchResult where
  state : AppState
  listCalls : Nat
  outcome : HydrationOutcome
deriving DecidableEq, Repr

/-- The network path of `fetchProducts` (`src/app.js:51-79`): invoke
the remote `list` once; on a successful response seed both the model
and the cache from `data.products`; a transport failure falls into the
surrounding catch, leaving the state untouched. -/
def fetchFromApi (s : AppState) (remoteList : Except Unit (List Product)) :
    FetchResult :=
  match remoteList with
  | .ok data => { state := saveLocalProducts data, listCalls := 1, outcome := .fromApi }
  | .error _ => { state := s, listCalls := 1, outcome := .failed }

/-- `fetchProducts` (`src/app.js:35-95`): read the cache; a stored
non-empty collection hydrates the model with no network call; otherwise
fetch from the API.  A `JSON.parse` exception from `getLocalProducts`
is caught by the function's try/catch before any fetch happens. -/
def fetchProducts (s : AppState) (remoteList : Except Unit (List Product)) :
    FetchResult :=
  match getLocalProducts s.storage with
  | .error _ => { state := s, listCalls := 0, outcome := .failed }
  | .ok stored =>
    match stored with
    | some ps =>
      if 0 < ps.length then
        { state := { s with localProducts := ps }, listCalls := 0,
          outcome := .fromCache }
      else fetchFromApi s remoteList
    | none => fetchFromApi s remoteList

/-- Result of a mutating controller operation: the new state and
whether the success toast (`true`) or the failure toast (`false`) was
shown. -/
structure MutResult where
  state : AppState
  success : Bool
deriving DecidableEq, Repr

/-- `Math.max(...ids)` as used at `src/app.js:343` (the empty case is
unreachable there because of the `length > 0` guard). -/
def mathMaxIds : List Int → Int
  | [] => 0
  | x :: xs => xs.foldl max x

/-- `addProduct` (`src/app.js:317-407`): POST to the API; on a 2xx
response (`response.ok`) synthesize the next identifier
(`max + 1`, or `101` for an empty collection), append the new record
and persist; otherwise (or on a transport error) report failure with
the state untouched. -/
def addProduct (s : AppState) (remote : Except Unit Nat)
    (title descr : List Char) (price : Int) (category thumbnail : List Char) :
    MutResult :=
  match remote with
  | .error _ => { state := s, success := false }
  | .ok status =>
    if 200 ≤ status ∧ status ≤ 299 then
      let newId : Int :=
        if 0 < s.localProducts.length then
          mathMaxIds (s.localProducts.map Product.id) + 1
        else 101
      let newProduct : Product :=
        { id := newId, title := title, description := descr, price := price,
          category := category, thumbnail := thumbnail }
      { state := saveLocalProducts (s.localProducts ++ [newProduct]),
        success := true }
    else { state := s, success := false }

/-- `Array.prototype.findIndex` with its running index; `none` models
the `-1` result the source compares against. -/
def findIndexAux (p : Product → Bool) : List Product → Nat → Option Nat
  | [], _ => none
  | x :: xs, i => if p x then some i else findIndexAux p xs (i + 1)

/-- `updateProduct` (`src/app.js:224-311`): PUT to the API; only a
response status of exactly `200` takes the success branch; there the
record at the first index whose `id` matches is replaced and the whole
model persisted — when no index matches, nothing is mutated but the
success toast is still shown.  Any other status or a transport error
reports failure with the state untouched. -/
def updateProduct (s : AppState) (remote : Except Unit Nat) (productId : Int)
    (title descr : List Char) (price : Int) (category thumbnail : List Char) :
    MutResult :=
  match remote with
  | .error _ => { state := s, success := false }
  | .ok status =>
    if status = 200 then
      match findIndexAux (fun p => p.id == productId) s.localProducts 0 with
      | some i =>
        let updated : Product :=
          { id := productId, title := title, description := descr,
            price := price, category := category, thumbnail := thumbnail }
        { state := saveLocalProducts (s.localProducts.set i updated),
          success := true }
      | none => { state := s, success := true }
    else { state := s, success := false }

/-- `deleteProduct` (`src/app.js:413-468`): DELETE to the API; only a
response status of exactly `200` takes the success branch; there the
record is filtered out of the model and the whole model persisted.
Any other status or a transport error reports failure with the state
untouched. -/
def deleteProduct (s : AppState) (remote : Except Unit Nat) (productId : Int) :
    MutResult :=
  match remote with
  | .error _ => { state := s, success := false }
  | .ok status =>
    if status = 200 then
      { state := saveLocalProducts
          (s.localProducts.filter (fun p => !(p.id == productId))),
        success := true }
    else { state := s, success := false }

/-- The form inputs and remote outcome of one add operation. -/
structure AddRequest where
  remote : Except Unit Nat
  title : List Char
  descr : List Char
  price : Int
  category : List Char
  thumbnail : List Char

/-- Run a sequence of add operations in order. -/
def runAdds (s : AppState) : List AddRequest → AppState
  | [] => s
  | r :: rs =>
    runAdds (addProduct s r.remote r.title r.descr r.price r.category
      r.thumbnail).state rs

/-- The cache coherence invariant: the stored value is exactly the JSON
serialization of the in-memory collection. -/
def cacheInv (s : AppState) : Prop :=
  s.storage = some (stringifyProducts s.localProducts)

/-! ## Round-trip lemmas: the parser inverts the serializer -/

theorem hexVal_hexDigit : ∀ d, d < 16 → hexVal (hexDigit d) = some d := by decide

theorem digitVal_hexDigit : ∀ d, d < 10 → digitVal (hexDigit d) = some d := by decide

theorem escapeChar_length_pos (c : Char) : 1 ≤ (escapeChar c).length := by
  rw [escapeChar]
  split_ifs <;> simp

theorem parseStringBodyF_unparse (s : List Char) :
    ∀ fuel rest, (escString s).length < fuel →
    parseStringBodyF fuel (escString s ++ '"' :: rest) = some (s, rest) := by
  induction s with
  | nil =>
    intro fuel rest hf
    cases fuel with
    | zero => simp [escString] at hf
    | succ f => simp [escString, parseStringBodyF]
  | cons c cs ih =>
    intro fuel rest hf
    cases fuel with
    | zero => simp [escString] at hf
    | succ f =>
      have hcs : (escString cs).length < f := by
        have h1 := escapeChar_length_pos c
        rw [escString, List.length_append] at hf
        omega
      rw [escString, List.append_assoc]
      simp only [escapeChar]
      split_ifs with h1 h2 h3 h4 h5 h6 h7 h8
      · subst h1; simp [parseStringBodyF, namedUnesc, ih f rest hcs]
      · subst h2; simp [parseStringBodyF, namedUnesc, ih f rest hcs]
      · subst h3; simp [parseStringBodyF, namedUnesc, ih f rest hcs]
      · subst h4; simp [parseStringBodyF, namedUnesc, ih f rest hcs]
      · subst h5; simp [parseStringBodyF, namedUnesc, ih f rest hcs]
      · subst h6; simp [parseStringBodyF, namedUnesc, ih f rest hcs]
      · subst h7; simp [parseStringBodyF, namedUnesc, ih f rest hcs]
      · have hdiv : c.toNat / 16 < 16 := by omega
        have hmod : c.toNat % 16 < 16 := Nat.mod_lt _ (by norm_num)
        have h0 : hexVal '0' = some 0 := rfl
        simp [parseStringBodyF, parseHex4, h0, hexVal_hexDigit _ hdiv,
          hexVal_hexDigit _ hmod, ih f rest hcs, Nat.div_add_mod c.toNat 16,
          Char.ofNat_toNat]
      · simp [parseStringBodyF, h1, h2, ih f rest hcs]

theorem parseQString_unparse (s rest : List Char) :
    parseQString (encStr s ++ rest) = some (s, rest) := by
  have h : encStr s ++ rest = '"' :: (escString s ++ '"' :: rest) := by
    simp [encStr]
  rw [h]
  simp only [parseQString]
  exact parseStringBodyF_unparse s _ rest
    (by simp only [List.length_append, List.length_cons]; omega)

theorem expectLit_append (pat rest : List Char) :
    expectLit pat (pat ++ rest) = some rest := by
  induction pat with
  | nil => rfl
  | cons p ps ih => simp [expectLit, ih]

theorem natDigitsRev_eq_digits (fuel : Nat) :
    ∀ n, n ≤ fuel → natDigitsRev fuel n = Nat.digits 10 n := by
  induction fuel with
  | zero =>
    intro n h
    have : n = 0 := by omega
    subst this; simp [natDigitsRev]
  | succ f ih =>
    intro n h
    rw [natDigitsRev]
    by_cases hn : n = 0
    · subst hn; simp
    · rw [if_neg hn,
        Nat.digits_def' (by norm_num : (1 : ℕ) < 10) (Nat.pos_of_ne_zero hn)]
      congr 1
      refine ih _ ?_
      have := Nat.div_lt_self (Nat.pos_of_ne_zero hn) (by norm_num : 1 < 10)
      omega

theorem digitsToNat_eq_ofDigits (ds : List Nat) :
    digitsToNat ds = Nat.ofDigits 10 ds := by
  induction ds with
  | nil => rfl
  | cons d ds ih => simp [digitsToNat, Nat.ofDigits_cons, List.foldr] at ih ⊢; omega

/-- Whether the input begins with a decimal digit (used to delimit the
greedy number parser). -/
def startsWithDigit : List Char → Bool
  | [] => false
  | c :: _ => (digitVal c).isSome

theorem parseDigits_append (bs : List Nat) (rest : List Char)
    (hb : ∀ d ∈ bs, d < 10) (hr : startsWithDigit rest = false) :
    parseDigits (bs.map hexDigit ++ rest) = (bs, rest) := by
  induction bs with
  | nil =>
    cases rest with
    | nil => rfl
    | cons c t =>
      have : digitVal c = none := by
        simp [startsWithDigit, Option.isSome] at hr
        cases h : digitVal c with
        | none => rfl
        | some d => rw [h] at hr; simp at hr
      simp [parseDigits, this]
  | cons d ds ih =>
    have hd : d < 10 := hb d (by simp)
    simp [parseDigits, digitVal_hexDigit d hd,
      ih (fun x hx => hb x (by simp [hx]))]

/-- The digit characters `encNat` emits, as digit values. -/
theorem encNat_eq (n : Nat) :
    encNat n =
      (if n = 0 then [0] else (Nat.digits 10 n).reverse).map hexDigit := by
  by_cases hn : n = 0
  · subst hn; rfl
  · rw [encNat, if_neg hn, if_neg hn, natDigitsRev_eq_digits n n (le_refl n),
      List.map_reverse]

theorem parseNat_unparse (n : Nat) (rest : List Char)
    (hr : startsWithDigit rest = false) :
    parseNat (encNat n ++ rest) = some (n, rest) := by
  by_cases hn : n = 0
  · subst hn
    have h0 : parseDigits (([0].map hexDigit) ++ rest) = ([0], rest) :=
      parseDigits_append [0] rest (by norm_num) hr
    have h0' : parseDigits (['0'] ++ rest) = ([0], rest) := h0
    have he : encNat 0 = ['0'] := rfl
    rw [he]
    unfold parseNat
    rw [h0']
    simp [digitsToNat]
  · have hbs : encNat n = ((Nat.digits 10 n).reverse).map hexDigit := by
      rw [encNat_eq, if_neg hn]
    have hlt : ∀ d ∈ (Nat.digits 10 n).reverse, d < 10 := fun d hd =>
      Nat.digits_lt_base (by norm_num) (List.mem_reverse.mp hd)
    have h0 := parseDigits_append _ rest hlt hr
    cases hd : (Nat.digits 10 n).reverse with
    | nil =>
      exact absurd (List.reverse_eq_nil_iff.mp hd)
        (Nat.digits_ne_nil_iff_ne_zero.mpr hn)
    | cons b bt =>
      rw [hd] at h0
      rw [hbs, hd]
      unfold parseNat
      rw [h0]
      have hval : digitsToNat ((b :: bt).reverse) = n := by
        rw [← hd, digitsToNat_eq_ofDigits, List.reverse_reverse]
        exact Nat.ofDigits_digits 10 n
      show some (digitsToNat (b :: bt).reverse, rest) = some (n, rest)
      rw [hval]

theorem encNat_head (n : Nat) :
    ∃ b bt, encNat n = hexDigit b :: bt ∧ b < 10 := by
  rw [encNat_eq]
  by_cases hn : n = 0
  · rw [if_pos hn]; exact ⟨0, [], rfl, by norm_num⟩
  · rw [if_neg hn]
    cases hd : (Nat.digits 10 n).reverse with
    | nil =>
      exact absurd (List.reverse_eq_nil_iff.mp hd)
        (Nat.digits_ne_nil_iff_ne_zero.mpr hn)
    | cons b bt =>
      have hmem : b ∈ (Nat.digits 10 n).reverse := by rw [hd]; simp
      exact ⟨b, bt.map hexDigit, by simp,
        Nat.digits_lt_base (by norm_num) (List.mem_reverse.mp hmem)⟩

theorem parseJsInt_unparse (i : Int) (rest : List Char)
    (hr : startsWithDigit rest = false) :
    parseJsInt (encInt i ++ rest) = some (i, rest) := by
  by_cases hi : i < 0
  · rw [encInt, if_pos hi, List.cons_append, parseJsInt]
    rw [if_pos rfl, parseNat_unparse _ _ hr]
    have hc : (((-i).toNat : Int)) = -i := Int.toNat_of_nonneg (by omega)
    simp [hc]
  · obtain ⟨b, bt, hb, hblt⟩ := encNat_head i.toNat
    rw [encInt, if_neg hi, hb, List.cons_append, parseJsInt]
    have hne : hexDigit b ≠ '-' := by
      intro h
      have := digitVal_hexDigit b hblt
      rw [h] at this
      simp [digitVal] at this
    rw [if_neg hne, ← List.cons_append, ← hb, parseNat_unparse _ _ hr]
    have hc : ((i.toNat : Int)) = i := Int.toNat_of_nonneg (by omega)
    simp [hc]

set_option maxHeartbeats 2000000 in
theorem parseProduct_unparse (p : Product) (rest : List Char) :
    parseProduct (encProduct p ++ rest) = some (p, rest) := by
  cases p with
  | mk idv tl dsc pr ct tb =>
    simp only [encProduct, List.cons_append, List.append_assoc]
    simp [parseProduct, expectLit, parseJsInt_unparse, parseQString_unparse,
      startsWithDigit, digitVal]

/-- Whether the input begins with a comma (delimits the item list). -/
def startsWithComma : List Char → Bool
  | [] => false
  | c :: _ => c == ','

theorem parseItemsF_unparse :
    ∀ (ps : List Product), ps ≠ [] → ∀ (fuel : Nat) (rest : List Char),
      ps.length ≤ fuel → startsWithComma rest = false →
      parseItemsF fuel (encProductsBody ps ++ rest) = some (ps, rest) := by
  intro ps
  induction ps with
  | nil => intro h; exact absurd rfl h
  | cons p ps ih =>
    intro _ fuel rest hfuel hrest
    cases fuel with
    | zero => simp at hfuel
    | succ f =>
      cases ps with
      | nil =>
        have hbody : encProductsBody [p] = encProduct p := rfl
        rw [hbody]
        simp only [parseItemsF, parseProduct_unparse]
        cases rest with
        | nil => rfl
        | cons c t =>
          have hc : ¬c = ',' := by
            intro h
            rw [startsWithComma, h] at hrest
            simp at hrest
          simp [hc]
      | cons q qs =>
        have hbody : encProductsBody (p :: q :: qs)
            = encProduct p ++ ',' :: encProductsBody (q :: qs) := rfl
        rw [hbody, List.append_assoc, List.cons_append]
        simp only [parseItemsF, parseProduct_unparse]
        have hih := ih (by simp) f rest (by simp at hfuel ⊢; omega) hrest
        simp [hih]

theorem length_le_encProductsBody (ps : List Product) :
    ps.length ≤ (encProductsBody ps).length := by
  induction ps with
  | nil => simp [encProductsBody]
  | cons p ps ih =>
    cases ps with
    | nil => simp [encProductsBody, encProduct]
    | cons q qs =>
      have hbody : encProductsBody (p :: q :: qs)
          = encProduct p ++ ',' :: encProductsBody (q :: qs) := rfl
      rw [hbody]
      simp only [List.length_append, List.length_cons] at ih ⊢
      omega

theorem encProductsBody_cons_head (p : Product) (ps : List Product) :
    ∃ t, encProductsBody (p :: ps) = '\x7b' :: t := by
  cases ps with
  | nil => exact ⟨_, rfl⟩
  | cons q qs => exact ⟨_, rfl⟩

/-- The parser inverts the serializer: `JSON.parse` of
`JSON.stringify` of any product collection gives the collection back. -/
theorem parse_stringify (ps : List Product) :
    parseProducts (stringifyProducts ps) = some ps := by
  cases ps with
  | nil => rfl
  | cons p ps' =>
    obtain ⟨t, ht⟩ := encProductsBody_cons_head p ps'
    have hlen : (p :: ps').length ≤ (encProductsBody (p :: ps') ++ [']']).length := by
      have := length_le_encProductsBody (p :: ps')
      simp only [List.length_append, List.length_cons, List.length_nil] at this ⊢
      omega
    have hitems := parseItemsF_unparse (p :: ps') (by simp)
      ((encProductsBody (p :: ps') ++ [']']).length) [']'] hlen (by rfl)
    have hshape : stringifyProducts (p :: ps')
        = '[' :: ('\x7b' :: (t ++ [']'])) := by
      rw [stringifyProducts, ht]
      simp
    have hback : '\x7b' :: (t ++ [']']) = encProductsBody (p :: ps') ++ [']'] := by
      rw [ht]
      simp
    rw [hshape]
    show (match parseItemsF ('\x7b' :: (t ++ [']'])).length ('\x7b' :: (t ++ [']'])) with
      | some (ps, rest2) =>
        match rest2 with
        | ']' :: rest3 => if rest3 = [] then some ps else none
        | _ => none
      | none => none) = some (p :: ps')
    rw [hback, hitems]
    rfl

/-! ## Helper lemmas about the controller primitives -/

theorem le_foldl_max (xs : List Int) (a : Int) : a ≤ xs.foldl max a := by
  induction xs generalizing a with
  | nil => exact le_refl a
  | cons x xs ih => exact le_trans (le_max_left a x) (ih (max a x))

theorem mem_le_foldl_max (xs : List Int) (a : Int) :
    ∀ y ∈ xs, y ≤ xs.foldl max a := by
  induction xs generalizing a with
  | nil => intro y hy; simp at hy
  | cons x xs ih =>
    intro y hy
    rcases List.mem_cons.mp hy with h | h
    · subst h
      exact le_trans (le_max_right a y) (le_foldl_max xs (max a y))
    · exact ih (max a x) y h

theorem foldl_max_mem (xs : List Int) (a : Int) :
    xs.foldl max a = a ∨ xs.foldl max a ∈ xs := by
  induction xs generalizing a with
  | nil => left; rfl
  | cons x xs ih =>
    rcases ih (max a x) with h | h
    · rcases max_choice a x with hm | hm
      · left; rw [List.foldl_cons, h, hm]
      · right; rw [List.foldl_cons, h, hm]; exact List.mem_cons_self x xs
    · right; exact List.mem_cons_of_mem x h

theorem mathMaxIds_ge (l : List Int) (hl : l ≠ []) :
    ∀ y ∈ l, y ≤ mathMaxIds l := by
  cases l with
  | nil => exact absurd rfl hl
  | cons x xs =>
    intro y hy
    rcases List.mem_cons.mp hy with h | h
    · subst h; exact le_foldl_max xs y
    · exact mem_le_foldl_max xs x y h

theorem mathMaxIds_mem (l : List Int) (hl : l ≠ []) : mathMaxIds l ∈ l := by
  cases l with
  | nil => exact absurd rfl hl
  | cons x xs =>
    rcases foldl_max_mem xs x with h | h
    · rw [mathMaxIds, h]; exact List.mem_cons_self x xs
    · rw [mathMaxIds]; exact List.mem_cons_of_mem x h

theorem findIndexAux_none (p : Product → Bool) (l : List Product)
    (h : ∀ x ∈ l, p x = false) : ∀ i, findIndexAux p l i = none := by
  induction l with
  | nil => intro i; rfl
  | cons x xs ih =>
    intro i
    simp [findIndexAux, h x (List.mem_cons_self x xs)]
    exact ih (fun y hy => h y (List.mem_cons_of_mem x hy)) (i + 1)

theorem findIndexAux_append (p : Product → Bool) (l₁ : List Product)
    (x : Product) (l₂ : List Product) (h1 : ∀ q ∈ l₁, p q = false)
    (hx : p x = true) :
    ∀ i, findIndexAux p (l₁ ++ x :: l₂) i = some (i + l₁.length) := by
  induction l₁ generalizing l₂ with
  | nil => intro i; simp [findIndexAux, hx]
  | cons a t ih =>
    intro i
    simp only [List.cons_append, findIndexAux, List.append_eq]
    rw [h1 a (List.mem_cons_self a t)]
    simp only [Bool.false_eq_true, if_false]
    rw [ih l₂ (fun q hq => h1 q (List.mem_cons_of_mem a hq)) (i + 1)]
    congr 1
    simp only [List.length_cons]
    omega

theorem set_append_cons (l₁ : List Product) (x v : Product) (l₂ : List Product) :
    (l₁ ++ x :: l₂).set l₁.length v = l₁ ++ v :: l₂ := by
  induction l₁ with
  | nil => rfl
  | cons a t ih => simp [List.set, ih]

theorem nodup_append_singleton (l : List Int) (a : Int)
    (hl : l.Nodup) (ha : a ∉ l) : (l ++ [a]).Nodup := by
  simp [List.nodup_append, hl, ha]

/-- One add operation preserves distinctness of the identifiers: a
failed add leaves the collection unchanged, and a successful add
appends a record whose synthesized identifier exceeds every identifier
already present (or is the baseline in an empty collection). -/
theorem addProduct_nodup (s : AppState) (remote : Except Unit Nat)
    (t d : List Char) (pr : Int) (c th : List Char)
    (h : (s.localProducts.map Product.id).Nodup) :
    ((addProduct s remote t d pr c th).state.localProducts.map Product.id).Nodup := by
  cases remote with
  | error e => exact h
  | ok status =>
    by_cases hst : 200 ≤ status ∧ status ≤ 299
    · by_cases hlen : 0 < s.localProducts.length
      · have hred : (addProduct s (.ok status) t d pr c th).state.localProducts
            = s.localProducts ++
              [⟨mathMaxIds (s.localProducts.map Product.id) + 1, t, d, pr, c, th⟩] := by
          simp [addProduct, hst, hlen, saveLocalProducts]
        rw [hred, List.map_append]
        simp only [List.map_cons, List.map_nil]
        refine nodup_append_singleton _ _ h ?_
        dsimp only
        intro hmem
        have hne : s.localProducts.map Product.id ≠ [] := by
          intro hmape
          rw [List.map_eq_nil_iff] at hmape
          rw [hmape] at hlen
          simp at hlen
        have hle := mathMaxIds_ge (s.localProducts.map Product.id) hne _ hmem
        omega
      · have hnil : s.localProducts = [] := by
          cases hs : s.localProducts with
          | nil => rfl
          | cons a b => rw [hs] at hlen; simp at hlen
        have hred : (addProduct s (.ok status) t d pr c th).state.localProducts
            = s.localProducts ++ [⟨101, t, d, pr, c, th⟩] := by
          simp [addProduct, hst, hlen, saveLocalProducts]
        rw [hred, hnil]
        simp
    · have hred : (addProduct s (.ok status) t d pr c th).state = s := by
        simp [addProduct, hst]
      rw [hred]
      exact h

/-! ## Concrete fixtures used by the witness theorems -/

/-- A minimal product record with the given identifier. -/
def sampleProduct (i : Int) : Product := ⟨i, [], [], 0, [], []⟩

/-- A state holding the spec's example identifiers 101, 102, 105. -/
def s101 : AppState :=
  { localProducts := [sampleProduct 101, sampleProduct 102, sampleProduct 105],
    storage := none }

/-! ## Claim theorems -/

/-- C1: For every successful add operation, the identifier assigned to
the new record equals one plus the maximum identifier present in the
collection when the collection is non-empty, and equals the fixed
baseline 101 when the collection is empty. -/
theorem c1_add_assigns_next_id (s : AppState) (remote : Except Unit Nat)
    (t d : List Char) (pr : Int) (c th : List Char)
    (hsuc : (addProduct s remote t d pr c th).success = true) :
    ∃ p : Product,
      (addProduct s remote t d pr c th).state.localProducts
        = s.localProducts ++ [p] ∧
      (s.localProducts = [] → p.id = 101) ∧
      (s.localProducts ≠ [] →
        (∀ q ∈ s.localProducts, q.id < p.id) ∧
        (∃ q ∈ s.localProducts, p.id = q.id + 1)) := by
  cases remote with
  | error e => simp [addProduct] at hsuc
  | ok status =>
    by_cases hst : 200 ≤ status ∧ status ≤ 299
    · by_cases hemp : s.localProducts = []
      · have hlen : ¬0 < s.localProducts.length := by rw [hemp]; simp
        refine ⟨⟨101, t, d, pr, c, th⟩, ?_, fun _ => rfl, fun hne => absurd hemp hne⟩
        simp [addProduct, hst, hlen, saveLocalProducts]
      · have hlen : 0 < s.localProducts.length := by
          cases hs : s.localProducts with
          | nil => exact absurd hs hemp
          | cons a b => simp [hs]
        have hne : s.localProducts.map Product.id ≠ [] := by
          intro hmape
          exact hemp (List.map_eq_nil_iff.mp hmape)
        refine ⟨⟨mathMaxIds (s.localProducts.map Product.id) + 1, t, d, pr, c, th⟩,
          ?_, fun he => absurd he hemp, fun _ => ⟨?_, ?_⟩⟩
        · simp [addProduct, hst, hlen, saveLocalProducts]
        · intro q hq
          have := mathMaxIds_ge (s.localProducts.map Product.id) hne q.id
            (List.mem_map_of_mem Product.id hq)
          dsimp only
          omega
        · have hmem := mathMaxIds_mem (s.localProducts.map Product.id) hne
          obtain ⟨q, hq, hqid⟩ := List.mem_map.mp hmem
          exact ⟨q, hq, by dsimp only; omega⟩
    · simp [addProduct, hst] at hsuc

/-- C1 witness: adding to the model holding identifiers 101, 102, 105
with a 2xx response appends a record, and that record's identifier is
one plus the maximum (106). -/
theorem c1_witness :
    (addProduct s101 (Except.ok 200) [] [] 5 [] []).success = true ∧
    ∃ p : Product,
      (addProduct s101 (Except.ok 200) [] [] 5 [] []).state.localProducts
        = s101.localProducts ++ [p] ∧
      (s101.localProducts = [] → p.id = 101) ∧
      (s101.localProducts ≠ [] →
        (∀ q ∈ s101.localProducts, q.id < p.id) ∧
        (∃ q ∈ s101.localProducts, p.id = q.id + 1)) :=
  ⟨by decide, c1_add_assigns_next_id s101 (Except.ok 200) [] [] 5 [] [] (by decide)⟩

/-- C2: starting from a collection whose identifiers are pairwise
distinct, after any prefix of any sequence of add operations no two
records in the model share an identifier. -/
theorem c2_adds_keep_ids_unique (s : AppState)
    (h : (s.localProducts.map Product.id).Nodup)
    (reqs pre post : List AddRequest) (hsplit : reqs = pre ++ post) :
    ((runAdds s pre).localProducts.map Product.id).Nodup := by
  clear hsplit
  induction pre generalizing s with
  | nil => exact h
  | cons r rs ih =>
    rw [runAdds]
    exact ih _ (addProduct_nodup s r.remote r.title r.descr r.price
      r.category r.thumbnail h)

/-- C2 witness: two successive adds on the example model keep all
identifiers distinct. -/
theorem c2_witness :
    ((runAdds s101 [⟨Except.ok 200, [], [], 1, [], []⟩]).localProducts.map
      Product.id).Nodup :=
  c2_adds_keep_ids_unique s101 (by decide)
    [⟨Except.ok 200, [], [], 1, [], []⟩, ⟨Except.ok 500, [], [], 2, [], []⟩]
    [⟨Except.ok 200, [], [], 1, [], []⟩] [⟨Except.ok 500, [], [], 2, [], []⟩] rfl

/-- C3: after every successful mutating operation (add, update,
delete) the cache contents equal the JSON-serialized in-memory
collection, and every cache write is one full replacement of the
stored snapshot. -/
theorem c3_cache_matches_model (s : AppState) (hinv : cacheInv s)
    (remote : Except Unit Nat) (pid : Int) (t d : List Char) (pr : Int)
    (c th : List Char) :
    ((addProduct s remote t d pr c th).success = true →
      cacheInv (addProduct s remote t d pr c th).state) ∧
    ((updateProduct s remote pid t d pr c th).success = true →
      cacheInv (updateProduct s remote pid t d pr c th).state) ∧
    ((deleteProduct s remote pid).success = true →
      cacheInv (deleteProduct s remote pid).state) ∧
    (∀ ps, (saveLocalProducts ps).storage
      = some (stringifyProducts (saveLocalProducts ps).localProducts)) := by
  refine ⟨?_, ?_, ?_, fun ps => rfl⟩
  · intro hsuc
    cases remote with
    | error e => simp [addProduct] at hsuc
    | ok status =>
      by_cases hst : 200 ≤ status ∧ status ≤ 299
      · simp [addProduct, hst, saveLocalProducts, cacheInv]
      · simp [addProduct, hst] at hsuc
  · intro hsuc
    cases remote with
    | error e => simp [updateProduct] at hsuc
    | ok status =>
      by_cases hst : status = 200
      · cases hfind : findIndexAux (fun p => p.id == pid) s.localProducts 0 with
        | none => simpa [updateProduct, hst, hfind] using hinv
        | some i => simp [updateProduct, hst, hfind, saveLocalProducts, cacheInv]
      · simp [updateProduct, hst] at hsuc
  · intro hsuc
    cases remote with
    | error e => simp [deleteProduct] at hsuc
    | ok status =>
      by_cases hst : status = 200
      · simp [deleteProduct, hst, saveLocalProducts, cacheInv]
      · simp [deleteProduct, hst] at hsuc

/-- C3 witness: from a coherent state, a successful delete and a
successful add leave the cache equal to the serialized model. -/
theorem c3_witness :
    cacheInv (deleteProduct (saveLocalProducts [sampleProduct 101])
      (Except.ok 200) 101).state ∧
    cacheInv (addProduct (saveLocalProducts [sampleProduct 101])
      (Except.ok 201) [] [] 7 [] []).state :=
  ⟨(c3_cache_matches_model (saveLocalProducts [sampleProduct 101]) rfl
      (Except.ok 200) 101 [] [] 7 [] []).2.2.1 (by decide),
   (c3_cache_matches_model (saveLocalProducts [sampleProduct 101]) rfl
      (Except.ok 201) 101 [] [] 7 [] []).1 (by decide)⟩

/-- C4: if the remote update call fails — a transport error or a
status outside the 2xx success range — the model and the cache are
byte-for-byte unchanged and a failure outcome is reported instead of
an exception propagating. -/
theorem c4_update_failure_is_atomic (s : AppState) (pid : Int)
    (t d : List Char) (pr : Int) (c th : List Char) :
    (updateProduct s (Except.error ()) pid t d pr c th
      = { state := s, success := false }) ∧
    (∀ status, ¬(200 ≤ status ∧ status ≤ 299) →
      updateProduct s (Except.ok status) pid t d pr c th
        = { state := s, success := false }) := by
  constructor
  · rfl
  · intro status hst
    have h200 : ¬status = 200 := by omega
    simp [updateProduct, h200]

/-- C4 witness: an update receiving status 500 leaves the example state
untouched and reports failure. -/
theorem c4_witness :
    updateProduct s101 (Except.ok 500) 101 [] [] 5 [] []
      = { state := s101, success := false } :=
  (c4_update_failure_is_atomic s101 101 [] [] 5 [] []).2 500 (by omega)

/-- C5: at startup, a cache holding a non-empty collection hydrates
the model with zero remote list calls; an empty or absent cache causes
exactly one remote list call, whose response seeds both the model and
the cache. -/
theorem c5_hydration_policy :
    (∀ (s : AppState) (ps : List Product) (remote : Except Unit (List Product)),
      ps ≠ [] → s.storage = some (stringifyProducts ps) →
      fetchProducts s remote
        = { state := { s with localProducts := ps }, listCalls := 0,
            outcome := HydrationOutcome.fromCache }) ∧
    (∀ (s : AppState) (remote : Except Unit (List Product)),
      (s.storage = none ∨ s.storage = some []
        ∨ s.storage = some (stringifyProducts [])) →
      (fetchProducts s remote).listCalls = 1 ∧
      (∀ data, remote = Except.ok data →
        fetchProducts s remote
          = { state := saveLocalProducts data, listCalls := 1,
              outcome := HydrationOutcome.fromApi })) := by
  constructor
  · intro s ps remote hne hst
    have hget : getLocalProducts s.storage = Except.ok (some ps) := by
      rw [hst, getLocalProducts,
        if_neg (by simp [stringifyProducts] : ¬stringifyProducts ps = []),
        parse_stringify]
    have hlen : 0 < ps.length := by
      cases hp : ps with
      | nil => exact absurd hp hne
      | cons a b => simp [hp]
    simp [fetchProducts, hget, hlen]
  · intro s remote hcase
    have hget : getLocalProducts s.storage = Except.ok none
        ∨ getLocalProducts s.storage = Except.ok (some []) := by
      rcases hcase with h | h | h
      · left; rw [h]; rfl
      · left; rw [h]; rfl
      · right; rw [h]; rfl
    have hfetch : fetchProducts s remote = fetchFromApi s remote := by
      rcases hget with h | h
      · simp [fetchProducts, h]
      · simp [fetchProducts, h]
    constructor
    · rw [hfetch]
      cases remote with
      | ok data => rfl
      | error e => rfl
    · intro data hd
      subst hd
      rw [hfetch]
      rfl

/-- An initial state whose cache already holds one product. -/
def seededState : AppState :=
  { localProducts := [], storage := some (stringifyProducts [sampleProduct 101]) }

/-- An initial state with no cached value. -/
def blankState : AppState := { localProducts := [], storage := none }

/-- C5 witness: a cache holding one product hydrates without any list
call; an absent cache triggers one list call that seeds model and
cache. -/
theorem c5_witness :
    fetchProducts seededState (Except.ok [])
      = { state := { localProducts := [sampleProduct 101],
                     storage := some (stringifyProducts [sampleProduct 101]) },
          listCalls := 0, outcome := HydrationOutcome.fromCache } ∧
    fetchProducts blankState (Except.ok [sampleProduct 102])
      = { state := saveLocalProducts [sampleProduct 102], listCalls := 1,
          outcome := HydrationOutcome.fromApi } :=
  ⟨c5_hydration_policy.1 seededState [sampleProduct 101] _ (by decide) rfl,
   (c5_hydration_policy.2 blankState
      (Except.ok [sampleProduct 102]) (Or.inl rfl)).2 _ rfl⟩

/-- C6 counterexample: the stored value `oops` is not valid JSON, yet
`load()` does not return the absent sentinel — the `JSON.parse`
exception propagates out of `getLocalProducts` (there is no local
catch at `src/app.js:20-23`). -/
theorem c6_counterexample :
    getLocalProducts (some ['o', 'o', 'p', 's']) = Except.error () ∧
    getLocalProducts (some ['o', 'o', 'p', 's']) ≠ Except.ok none := by
  constructor
  · rfl
  · intro hcontra
    have h1 : getLocalProducts (some ['o', 'o', 'p', 's'])
        = Except.error () := rfl
    rw [h1] at hcontra
    exact Except.noConfusion hcontra

/-- C6 amended: `load()` returns the absent sentinel when the key is
absent or holds the empty string; for a stored value that does not
parse, `load()` raises (models `JSON.parse` throwing), and the startup
caller's surrounding try/catch absorbs the exception — it reports a
load failure with the state untouched and no remote call, so the
malformed value never crashes the page, but `load()` itself raises
rather than returning absent. -/
theorem c6_amended_load_raises_caller_catches :
    (getLocalProducts none = Except.ok none) ∧
    (getLocalProducts (some []) = Except.ok none) ∧
    (∀ st : List Char, st ≠ [] → parseProducts st = none →
      getLocalProducts (some st) = Except.error ()) ∧
    (∀ (s : AppState) (remote : Except Unit (List Product)),
      getLocalProducts s.storage = Except.error () →
      fetchProducts s remote
        = { state := s, listCalls := 0, outcome := HydrationOutcome.failed }) := by
  refine ⟨rfl, rfl, ?_, ?_⟩
  · intro st hne hparse
    rw [getLocalProducts, if_neg hne, hparse]
  · intro s remote hget
    simp [fetchProducts, hget]

/-- A state whose cache slot holds the malformed value `oops`. -/
def oopsState : AppState :=
  { localProducts := [], storage := some ['o', 'o', 'p', 's'] }

/-- C6 witness: on the concrete malformed value `oops`, `load()`
raises, and startup catches it, reporting failure with zero list
calls. -/
theorem c6_witness :
    getLocalProducts (some ['o', 'o', 'p', 's']) = Except.error () ∧
    fetchProducts oopsState (Except.ok [])
      = { state := oopsState, listCalls := 0,
          outcome := HydrationOutcome.failed } :=
  ⟨c6_amended_load_raises_caller_catches.2.2.1 ['o', 'o', 'p', 's']
      (by decide) rfl,
   c6_amended_load_raises_caller_catches.2.2.2 oopsState (Except.ok [])
      (c6_amended_load_raises_caller_catches.2.2.1 ['o', 'o', 'p', 's']
        (by decide) rfl)⟩

/-- C7 counterexample: status 201 lies in the 2xx success range, yet
update (on an existing identifier) and delete both report failure and
leave the state untouched — the source compares against exactly 200
(`src/app.js:245`, `src/app.js:421`). -/
theorem c7_counterexample :
    (200 ≤ 201 ∧ 201 ≤ 299) ∧
    (updateProduct s101 (Except.ok 201) 101 [] [] 5 [] []).success = false ∧
    (updateProduct s101 (Except.ok 201) 101 [] [] 5 [] []).state = s101 ∧
    (deleteProduct s101 (Except.ok 201) 101).success = false ∧
    (deleteProduct s101 (Except.ok 201) 101).state = s101 := by decide

/-- C7 amended: update and delete treat exactly HTTP status 200 as the
success signal (unlike add, which accepts any 2xx): status 200 yields
the success outcome, with delete removing the matching record; every
other status — including other 2xx statuses such as 201 — yields the
failure outcome with model and cache untouched. -/
theorem c7_amended_update_delete_require_200 (s : AppState) (pid : Int)
    (t d : List Char) (pr : Int) (c th : List Char) (status : Nat) :
    ((updateProduct s (Except.ok status) pid t d pr c th).success = true
      ↔ status = 200) ∧
    ((deleteProduct s (Except.ok status) pid).success = true
      ↔ status = 200) ∧
    (status ≠ 200 →
      updateProduct s (Except.ok status) pid t d pr c th
        = { state := s, success := false } ∧
      deleteProduct s (Except.ok status) pid
        = { state := s, success := false }) ∧
    (status = 200 →
      (deleteProduct s (Except.ok status) pid).state.localProducts
        = s.localProducts.filter (fun p => !(p.id == pid))) := by
  by_cases h200 : status = 200
  · subst h200
    refine ⟨?_, ?_, fun hne => absurd rfl hne, fun _ => ?_⟩
    · constructor
      · intro _; rfl
      · intro _
        cases hf : findIndexAux (fun p => p.id == pid) s.localProducts 0 with
        | none => simp [updateProduct, hf]
        | some i => simp [updateProduct, hf]
    · simp [deleteProduct]
    · simp [deleteProduct, saveLocalProducts]
  · refine ⟨?_, ?_, fun _ => ⟨?_, ?_⟩, fun he => absurd he h200⟩ <;>
      simp [updateProduct, deleteProduct, h200]

/-- C7 witness: with status 200 the delete succeeds and filters the
record out; with status 201 the update reports failure. -/
theorem c7_witness :
    (deleteProduct s101 (Except.ok 200) 101).state.localProducts
      = s101.localProducts.filter (fun p => !(p.id == 101)) ∧
    ((updateProduct s101 (Except.ok 201) 102 [] [] 5 [] []).success = true
      ↔ (201 : Nat) = 200) :=
  ⟨(c7_amended_update_delete_require_200 s101 101 [] [] 5 [] [] 200).2.2.2 rfl,
   (c7_amended_update_delete_require_200 s101 102 [] [] 5 [] [] 201).1⟩

/-- C8: after a successful update (status 200) of an existing
identifier submitting a new price and the record's old values for all
other fields, exactly that record is replaced (new price, same
identifier), every other record and the order are unchanged, no record
is created, and the cache holds the serialization of the updated
collection. -/
theorem c8_update_price_frame (s : AppState) (pid newPrice : Int)
    (l₁ : List Product) (old : Product) (l₂ : List Product)
    (hsplit : s.localProducts = l₁ ++ old :: l₂)
    (hleft : ∀ q ∈ l₁, q.id ≠ pid)
    (hid : old.id = pid) :
    (updateProduct s (Except.ok 200) pid old.title old.description newPrice
        old.category old.thumbnail).success = true ∧
    (updateProduct s (Except.ok 200) pid old.title old.description newPrice
        old.category old.thumbnail).state.localProducts
      = l₁ ++ { old with price := newPrice } :: l₂ ∧
    (updateProduct s (Except.ok 200) pid old.title old.description newPrice
        old.category old.thumbnail).state.localProducts.length
      = s.localProducts.length ∧
    (updateProduct s (Except.ok 200) pid old.title old.description newPrice
        old.category old.thumbnail).state.storage
      = some (stringifyProducts (l₁ ++ { old with price := newPrice } :: l₂)) := by
  have hfind : findIndexAux (fun p => p.id == pid) s.localProducts 0
      = some l₁.length := by
    rw [hsplit]
    have h := findIndexAux_append (fun p => p.id == pid) l₁ old l₂
      (fun q hq => by simp [hleft q hq]) (by simp [hid]) 0
    simpa using h
  have hnew : ({ id := pid, title := old.title,
                 description := old.description, price := newPrice,
                 category := old.category,
                 thumbnail := old.thumbnail } : Product)
      = { old with price := newPrice } := by
    cases old
    simp at hid
    rw [hid]
  have hset : s.localProducts.set l₁.length { old with price := newPrice }
      = l₁ ++ { old with price := newPrice } :: l₂ := by
    rw [hsplit]
    exact set_append_cons l₁ old _ l₂
  have hstate : (updateProduct s (Except.ok 200) pid old.title old.description
      newPrice old.category old.thumbnail).state
      = saveLocalProducts (l₁ ++ { old with price := newPrice } :: l₂) := by
    simp [updateProduct, hfind, hnew, hset]
  refine ⟨?_, ?_, ?_, ?_⟩
  · simp [updateProduct, hfind]
  · rw [hstate]; rfl
  · rw [hstate, hsplit]
    simp [saveLocalProducts]
  · rw [hstate]; rfl

/-- C8 witness: updating the price of the record with identifier 102
in a two-record collection replaces exactly that record and re-saves
the collection. -/
theorem c8_witness :
    (updateProduct ⟨[sampleProduct 101, sampleProduct 102], none⟩
        (Except.ok 200) 102 (sampleProduct 102).title
        (sampleProduct 102).description 9 (sampleProduct 102).category
        (sampleProduct 102).thumbnail).success = true ∧
    (updateProduct ⟨[sampleProduct 101, sampleProduct 102], none⟩
        (Except.ok 200) 102 (sampleProduct 102).title
        (sampleProduct 102).description 9 (sampleProduct 102).category
        (sampleProduct 102).thumbnail).state.localProducts
      = [sampleProduct 101] ++ { sampleProduct 102 with price := 9 } :: [] ∧
    (updateProduct ⟨[sampleProduct 101, sampleProduct 102], none⟩
        (Except.ok 200) 102 (sampleProduct 102).title
        (sampleProduct 102).description 9 (sampleProduct 102).category
        (sampleProduct 102).thumbnail).state.localProducts.length
      = (⟨[sampleProduct 101, sampleProduct 102], none⟩ :
          AppState).localProducts.length ∧
    (updateProduct ⟨[sampleProduct 101, sampleProduct 102], none⟩
        (Except.ok 200) 102 (sampleProduct 102).title
        (sampleProduct 102).description 9 (sampleProduct 102).category
        (sampleProduct 102).thumbnail).state.storage
      = some (stringifyProducts
          ([sampleProduct 101] ++ { sampleProduct 102 with price := 9 } :: [])) :=
  c8_update_price_frame ⟨[sampleProduct 101, sampleProduct 102], none⟩ 102 9
    [sampleProduct 101] (sampleProduct 102) [] rfl (by decide) rfl

/-- C9: for every collection, saving it to the cache store and then
loading yields the same collection (JSON serialize-then-parse
round-trip under the fixed key). -/
theorem c9_save_load_roundtrip (ps : List Product) :
    getLocalProducts (saveLocalProducts ps).storage = Except.ok (some ps) := by
  show getLocalProducts (some (stringifyProducts ps)) = Except.ok (some ps)
  rw [getLocalProducts,
    if_neg (by simp [stringifyProducts] : ¬stringifyProducts ps = []),
    parse_stringify]

/-- C10: an update receiving status 200 for an identifier not present
in the model changes neither the model nor the cache — no record is
inserted and no save happens — yet it still reports success. -/
theorem c10_update_missing_id_reports_success (s : AppState) (pid : Int)
    (t d : List Char) (pr : Int) (c th : List Char)
    (hmiss : ∀ p ∈ s.localProducts, p.id ≠ pid) :
    updateProduct s (Except.ok 200) pid t d pr c th
      = { state := s, success := true } := by
  have hfind : findIndexAux (fun p => p.id == pid) s.localProducts 0 = none :=
    findIndexAux_none _ _ (fun x hx => by simp [hmiss x hx]) 0
  simp [updateProduct, hfind]

/-- C10 witness: updating the absent identifier 999 with status 200
leaves the example state intact and reports success. -/
theorem c10_witness :
    updateProduct s101 (Except.ok 200) 999 [] [] 5 [] []
      = { state := s101, success := true } :=
  c10_update_missing_id_reports_success s101 999 [] [] 5 [] [] (by decide)

end ShopManage
